import Mathlib

/-!
# tvpn: the connection orchestrator of `tvpn.go`

A shallow embedding of `TVPN.Run`, `TVPN.Stop`, `TVPN.Cleanup` and
`TVPN.IsFriend`.  Go maps are association lists, `*ConState` values are heap
addresses, and every call that leaves `tvpn.go` (to `NewState`, `state.Input`,
the `ConState` methods, the signaling channel and the address allocator) is
appended to a call log carried in the orchestrator state.  Those calls are
taken to return and to leave the two maps of the orchestrator alone; the one
exception is a method call through a nil `*ConState`, which panics.  The
`log.Out` diagnostics have no effect on the orchestrator and are left out.
-/

namespace Tvpn

/-! ## Go maps with string keys -/

/-- A Go `map[string]α`, as the list of its entries. -/
abbrev GoMap (α : Type) := List (String × α)

namespace GoMap

/-- The comma-ok read `v, ok := m[k]`; `none` stands for `ok == false`. -/
def lookup {α : Type} : GoMap α → String → Option α
  | [], _ => none
  | (k, v) :: rest, key => if k = key then some v else lookup rest key

/-- The assignment `m[key] = val`: overwrite the entry if there is one, add it otherwise. -/
def set {α : Type} : GoMap α → String → α → GoMap α
  | [], key, val => [(key, val)]
  | (k, v) :: rest, key, val =>
    if k = key then (k, val) :: rest else (k, v) :: set rest key val

/-- The builtin `delete(m, key)`. -/
def delete {α : Type} (m : GoMap α) (key : String) : GoMap α :=
  m.filter (fun e => decide (e.1 ≠ key))

/-- The single-value read `m[k]` of a `map[string]string`: the zero value when absent. -/
def index (m : GoMap String) (key : String) : String :=
  (lookup m key).getD ""

end GoMap

/-! ## Data model -/

/-- The address of a heap-allocated `ConState` (a non-nil `*ConState`). -/
abbrev Ptr := Nat

/-- Go `error` values that are not nil. -/
abbrev Error := String

/-- Lines 29-32: `type Friend struct`. -/
structure Friend where
  Validate : Bool
  Routes : GoMap String
  deriving DecidableEq, Repr

/-- Modelled from the spec: the message type tags are declared outside `tvpn.go`;
the spec gives `enum{Init, Join, Quit, Reset, Data...}`, so the four tags the
switch names are constructors and every remaining tag is `Other n`. -/
inductive MsgType where
  | Init
  | Join
  | Quit
  | Reset
  | Other (tag : Nat)
  deriving DecidableEq, Repr

/-- Modelled from the spec: `Message` is declared outside `tvpn.go`; `Run` reads
its fields `Type` (here `Typ`, `Type` being reserved), `From` and `Data`. -/
structure Message where
  Typ : MsgType
  From : String
  Data : GoMap String
  deriving DecidableEq, Repr

/-- One call leaving `tvpn.go`. -/
inductive Call where
  | AllocInit
  | AllocStop
  | SigConnect
  | SigDisconnect
  | NewState (name : String) (flag : Bool) (ret : Ptr)
  | Input (st : Ptr) (msg : Message)
  | Cleanup (st : Ptr)
  | Reset (st : Ptr) (reason : String)
  deriving DecidableEq, Repr

deriving instance DecidableEq for Except

/-- A Go run-time panic. -/
inductive Panic where
  | nilDereference
  deriving DecidableEq, Repr

/-- Lines 34-41: `type TVPN struct`.  `Friends` and `States` are the two maps;
the backends `Sig`, `Stun`, `VPN` and `Alloc` appear through the calls made on
them, collected in `calls`; `heap` counts the `ConState`s allocated so far. -/
structure TVPN where
  Friends : GoMap Friend
  States : GoMap Ptr
  heap : Nat
  calls : List Call
  deriving DecidableEq, Repr

/-- Lines 58-68: `New`; `States` is an empty map and `Friends` is still nil. -/
def New : TVPN :=
  { Friends := [], States := [], heap := 0, calls := [] }

/-- Lines 70-76: `Configure`, restricted to the friend table. -/
def Configure (t : TVPN) (friends : GoMap Friend) : TVPN :=
  { t with Friends := friends }

/-- Append one call to the log. -/
def TVPN.record (t : TVPN) (c : Call) : TVPN :=
  { t with calls := t.calls ++ [c] }

/-- Lines 78-81: `IsFriend`; an absent name gives the zero `Friend` and `false`. -/
def IsFriend (t : TVPN) (name : String) : Friend × Bool :=
  match GoMap.lookup t.Friends name with
  | some f => (f, true)
  | none => ({ Validate := false, Routes := [] }, false)

/-- Modelled from the spec: `NewState` is defined outside `tvpn.go`; it allocates
a state for the peer ("allocate bare state" / "allocate validated state") and
returns its address, which no earlier state has. -/
def NewState (name : String) (flag : Bool) (t : TVPN) : Ptr × TVPN :=
  (t.heap, { (t.record (Call.NewState name flag t.heap)) with heap := t.heap + 1 })

/-- Modelled from the spec: `ConState.Reset` is defined outside `tvpn.go`; the
spec's Reset action releases the state's resources and clears its negotiation
fields, so the method reads its receiver and a nil receiver is a nil-pointer
dereference.  The receiver is what `t.States[msg.From]` evaluates to: the entry,
or nil when there is none. -/
def ResetCall (recv : Option Ptr) (reason : String) (t : TVPN) : Except Panic TVPN :=
  match recv with
  | some st => Except.ok (t.record (Call.Reset st reason))
  | none => Except.error Panic.nilDereference

/-- Lines 98-128: the body of the receive loop, the switch on `msg.Type`. -/
def dispatch (t : TVPN) (msg : Message) : Except Panic TVPN :=
  match msg.Typ with
  | MsgType.Init =>
    let r := NewState msg.From false t
    let t1 := r.2.record (Call.Input r.1 msg)
    Except.ok { t1 with States := GoMap.set t1.States msg.From r.1 }
  | MsgType.Join =>
    if (IsFriend t msg.From).2 then
      let r := NewState msg.From true t
      Except.ok { r.2 with States := GoMap.set r.2.States msg.From r.1 }
    else
      Except.ok t
  | MsgType.Quit =>
    match GoMap.lookup t.States msg.From with
    | some st =>
      let t1 := t.record (Call.Cleanup st)
      Except.ok { t1 with States := GoMap.delete t1.States msg.From }
    | none => Except.ok t
  | MsgType.Reset =>
    ResetCall (GoMap.lookup t.States msg.From) (GoMap.index msg.Data "reason") t
  | MsgType.Other _ =>
    match GoMap.lookup t.States msg.From with
    | some st => Except.ok (t.record (Call.Input st msg))
    | none => Except.ok t

/-- Modelled from the spec: the `SigBackend` interface is declared outside
`tvpn.go`.  A channel is given by what it will do: the result of `Connect`
(`none` for a nil error), the messages `RecvMessage` delivers, in order, and the
error it returns after them. -/
structure SigBackend where
  connectErr : Option Error
  inbox : List Message
  recvErr : Error
  deriving DecidableEq, Repr

/-- Lines 97-130: the `for` loop of `Run` and the `return err` after it.  Each
round takes the next message of the channel and runs the switch on it; the round
in which `RecvMessage` returns its error leaves the loop. -/
def recvLoop (recvErr : Error) : List Message → TVPN → Except Panic (Error × TVPN)
  | [], t => Except.ok (recvErr, t)
  | msg :: rest, t =>
    match dispatch t msg with
    | Except.ok t1 => recvLoop recvErr rest t1
    | Except.error p => Except.error p

/-- Lines 84-131: `Run`.  The result is the returned error and the orchestrator
as `Run` leaves it. -/
def Run (t : TVPN) (sig : SigBackend) : Except Panic (Error × TVPN) :=
  let t1 := (t.record Call.AllocInit).record Call.SigConnect
  match sig.connectErr with
  | some err => Except.ok (err, t1)
  | none => recvLoop sig.recvErr sig.inbox t1

/-- Lines 144-147: the `range` loop of `Cleanup` over the entries of `States`;
each round cleans the entry's state up and deletes its key.  A map has one entry
per key, so the delete removes nothing the loop has still to visit. -/
def cleanupLoop : List (String × Ptr) → TVPN → TVPN
  | [], t => t
  | (i, v) :: rest, t =>
    let t1 := t.record (Call.Cleanup v)
    cleanupLoop rest { t1 with States := GoMap.delete t1.States i }

/-- Lines 143-148: `Cleanup`. -/
def Cleanup (t : TVPN) : TVPN :=
  cleanupLoop t.States t

/-- Lines 137-141: `Stop`. -/
def Stop (t : TVPN) : TVPN :=
  Cleanup ((t.record Call.SigDisconnect).record Call.AllocStop)

/-! ## Vocabulary of the properties -/

/-- Dispatching messages one by one, in the order given. -/
def dispatchAll (t : TVPN) (msgs : List Message) : Except Panic TVPN :=
  msgs.foldlM dispatch t

/-- The states created by `NewState` for `peer`, in creation order. -/
def created (calls : List Call) (peer : String) : List Ptr :=
  calls.filterMap (fun c =>
    match c with
    | Call.NewState name _ ret => if name = peer then some ret else none
    | _ => none)

/-- The live states of `peer`: created by `NewState` and not yet passed to `Cleanup`. -/
def live (calls : List Call) (peer : String) : List Ptr :=
  (created calls peer).filter (fun st => decide (Call.Cleanup st ∉ calls))

/-- The calls of a log that are `Cleanup` calls. -/
def cleanups (calls : List Call) : List Ptr :=
  calls.filterMap (fun c =>
    match c with
    | Call.Cleanup st => some st
    | _ => none)

/-- The messages delivered to the state `st` by `state.Input`. -/
def delivered (calls : List Call) (st : Ptr) : List Message :=
  calls.filterMap (fun c =>
    match c with
    | Call.Input s msg => if s = st then some msg else none
    | _ => none)

/-- The addresses a call mentions. -/
def Call.mentions : Call → List Ptr
  | Call.NewState _ _ ret => [ret]
  | Call.Input st _ => [st]
  | Call.Cleanup st => [st]
  | Call.Reset st _ => [st]
  | _ => []

/-- Every address in the registry or in the log has been allocated. -/
def TVPN.WF (t : TVPN) : Prop :=
  (∀ e ∈ t.States, e.2 < t.heap) ∧ (∀ c ∈ t.calls, ∀ p ∈ c.mentions, p < t.heap)

instance (t : TVPN) : Decidable t.WF := by
  unfold TVPN.WF
  infer_instance

/-! ## Sample inputs -/

/-- A friend table whose only entry, for bob, has `Validate == false`. -/
def bobUnvalidated : GoMap Friend :=
  [("bob", { Validate := false, Routes := [] })]

def initAlice : Message :=
  { Typ := MsgType.Init, From := "alice", Data := [] }

def joinBob : Message :=
  { Typ := MsgType.Join, From := "bob", Data := [] }

def joinEve : Message :=
  { Typ := MsgType.Join, From := "eve", Data := [] }

def quitAlice : Message :=
  { Typ := MsgType.Quit, From := "alice", Data := [] }

def resetAlice : Message :=
  { Typ := MsgType.Reset, From := "alice", Data := [("reason", "timeout")] }

def dataAlice : Message :=
  { Typ := MsgType.Other 0, From := "alice", Data := [("payload", "x")] }

/-- An orchestrator that knows bob as a friend and holds one state, for alice. -/
def aliceUp : TVPN :=
  { Friends := bobUnvalidated, States := [("alice", 0)], heap := 1,
    calls := [Call.NewState "alice" false 0, Call.Input 0 initAlice] }

/-- A channel that connects, delivers three messages from alice and then fails. -/
def aliceSession : SigBackend :=
  { connectErr := none, inbox := [initAlice, dataAlice, quitAlice], recvErr := "EOF" }

/-- A channel that connects, delivers one `Reset` from alice and then fails. -/
def resetSession : SigBackend :=
  { connectErr := none, inbox := [resetAlice], recvErr := "EOF" }

/-- A channel whose `Connect` fails. -/
def refusingChannel : SigBackend :=
  { connectErr := some "connection refused", inbox := [initAlice], recvErr := "EOF" }

/-- What `Run` leaves behind on `aliceSession`, started from `New`. -/
def aliceSessionEnd : TVPN :=
  { Friends := [], States := [], heap := 1,
    calls := [Call.AllocInit, Call.SigConnect, Call.NewState "alice" false 0,
      Call.Input 0 initAlice, Call.Input 0 dataAlice, Call.Cleanup 0] }

/-! ## Map laws -/

namespace GoMap

theorem lookup_set_self {α : Type} (m : GoMap α) (k : String) (v : α) :
    lookup (set m k v) k = some v := by
  induction m with
  | nil => simp [set, lookup]
  | cons e rest ih =>
    obtain ⟨k0, v0⟩ := e
    by_cases h : k0 = k
    · simp [set, lookup, h]
    · simp [set, lookup, h, ih]

theorem lookup_set_ne {α : Type} (m : GoMap α) (k q : String) (v : α) (h : q ≠ k) :
    lookup (set m k v) q = lookup m q := by
  have hkq : ¬ k = q := fun e => h e.symm
  induction m with
  | nil => simp [set, lookup, hkq]
  | cons e rest ih =>
    obtain ⟨k0, v0⟩ := e
    by_cases h1 : k0 = k
    · subst h1
      simp [set, lookup, hkq]
    · by_cases h3 : k0 = q
      · subst h3
        simp [set, lookup, h1]
      · simp [set, lookup, h1, h3, ih]

theorem lookup_delete_self {α : Type} (m : GoMap α) (k : String) :
    lookup (delete m k) k = none := by
  induction m with
  | nil => simp [delete, lookup]
  | cons e rest ih =>
    obtain ⟨k0, v0⟩ := e
    by_cases h : k0 = k
    · simpa [delete, List.filter_cons, h] using ih
    · simpa [delete, List.filter_cons, h, lookup] using ih

theorem lookup_delete_ne {α : Type} (m : GoMap α) (k q : String) (h : q ≠ k) :
    lookup (delete m k) q = lookup m q := by
  have hkq : ¬ k = q := fun e => h e.symm
  induction m with
  | nil => simp [delete, lookup]
  | cons e rest ih =>
    obtain ⟨k0, v0⟩ := e
    by_cases h1 : k0 = k
    · subst h1
      simpa [delete, List.filter_cons, lookup, hkq] using ih
    · by_cases h3 : k0 = q
      · subst h3
        simp [delete, List.filter_cons, h1, lookup]
      · simpa [delete, List.filter_cons, h1, lookup, h3] using ih

theorem delete_of_lookup_none {α : Type} (m : GoMap α) (k : String)
    (h : lookup m k = none) : delete m k = m := by
  induction m with
  | nil => simp [delete]
  | cons e rest ih =>
    obtain ⟨k0, v0⟩ := e
    by_cases h1 : k0 = k
    · simp [lookup, h1] at h
    · simp only [lookup, h1, if_false] at h
      have h2 := ih h
      simp only [delete] at h2 ⊢
      rw [List.filter_cons]
      simp only [ne_eq, h1, not_false_eq_true, decide_True, if_true]
      rw [h2]

theorem mem_of_lookup {α : Type} (m : GoMap α) (k : String) (v : α)
    (h : lookup m k = some v) : (k, v) ∈ m := by
  induction m with
  | nil => simp [lookup] at h
  | cons e rest ih =>
    obtain ⟨k0, v0⟩ := e
    by_cases h1 : k0 = k
    · simp [lookup, h1] at h
      simp [h1, h]
    · simp only [lookup, h1, if_false] at h
      exact List.mem_cons_of_mem _ (ih h)

theorem mem_set {α : Type} (m : GoMap α) (k : String) (v : α) (e : String × α)
    (h : e ∈ set m k v) : e ∈ m ∨ e = (k, v) := by
  induction m with
  | nil => simpa [set] using h
  | cons e0 rest ih =>
    obtain ⟨k0, v0⟩ := e0
    by_cases h1 : k0 = k
    · simp only [set, h1, if_true, List.mem_cons] at h
      rcases h with h | h
      · exact Or.inr h
      · exact Or.inl (List.mem_cons_of_mem _ h)
    · simp only [set, h1, if_false, List.mem_cons] at h
      rcases h with h | h
      · exact Or.inl (by simp [h])
      · rcases ih h with h2 | h2
        · exact Or.inl (List.mem_cons_of_mem _ h2)
        · exact Or.inr h2

end GoMap

/-! ## Dispatch: orchestrator lemmas -/

theorem record_States (t : TVPN) (c : Call) : (t.record c).States = t.States := rfl

theorem delivered_append (a b : List Call) (st : Ptr) :
    delivered (a ++ b) st = delivered a st ++ delivered b st := by
  simp [delivered, List.filterMap_append]

theorem cleanups_append (a b : List Call) :
    cleanups (a ++ b) = cleanups a ++ cleanups b := by
  simp [cleanups, List.filterMap_append]

theorem cleanups_map_Cleanup (l : List (String × Ptr)) :
    cleanups (l.map (fun e => Call.Cleanup e.2)) = l.map Prod.snd := by
  induction l with
  | nil => rfl
  | cons e rest ih =>
    simp only [List.map_cons, cleanups, List.filterMap_cons] at ih ⊢
    rw [ih]

/-- No message has been delivered to an address that is not allocated yet. -/
theorem delivered_heap_of_WF (t : TVPN) (h : t.WF) : delivered t.calls t.heap = [] := by
  have h2 := h.2
  unfold delivered
  rw [List.filterMap_eq_nil_iff]
  intro c hc
  cases c with
  | Input st m =>
    have hlt : st < t.heap := h2 _ hc st (by simp [Call.mentions])
    have hne : ¬ st = t.heap := Nat.ne_of_lt hlt
    simp [hne]
  | _ => rfl

/-- No registry entry holds an address that is not allocated yet. -/
theorem States_ne_heap_of_WF (t : TVPN) (h : t.WF) : ∀ e ∈ t.States, e.2 ≠ t.heap :=
  fun e he => Nat.ne_of_lt (h.1 e he)

theorem WF_New : New.WF := by decide

theorem cleanupLoop_spec (l : List (String × Ptr)) (t : TVPN) :
    (cleanupLoop l t).calls = t.calls ++ l.map (fun e => Call.Cleanup e.2) ∧
    (cleanupLoop l t).Friends = t.Friends ∧
    (cleanupLoop l t).heap = t.heap ∧
    ∀ e ∈ (cleanupLoop l t).States, e ∈ t.States ∧ ∀ e0 ∈ l, e.1 ≠ e0.1 := by
  induction l generalizing t with
  | nil => simp [cleanupLoop]
  | cons e0 rest ih =>
    obtain ⟨i, v⟩ := e0
    have h := ih { t.record (Call.Cleanup v) with
                   States := GoMap.delete (t.record (Call.Cleanup v)).States i }
    obtain ⟨hc, hf, hh, hs⟩ := h
    refine ⟨?_, ?_, ?_, ?_⟩
    · simp only [cleanupLoop, hc]
      simp [TVPN.record]
    · simp only [cleanupLoop, hf]
      rfl
    · simp only [cleanupLoop, hh]
      rfl
    · intro e he
      simp only [cleanupLoop] at he
      obtain ⟨h1, h2⟩ := hs e he
      simp only [GoMap.delete, record_States, List.mem_filter, decide_eq_true_eq] at h1
      refine ⟨h1.1, ?_⟩
      intro e1 he1
      rcases List.mem_cons.mp he1 with h3 | h3
      · rw [h3]
        exact h1.2
      · exact h2 e1 h3

theorem Cleanup_States (t : TVPN) : (Cleanup t).States = [] := by
  rw [List.eq_nil_iff_forall_not_mem]
  intro e he
  obtain ⟨h1, h2⟩ := (cleanupLoop_spec t.States t).2.2.2 e he
  exact h2 e h1 rfl

theorem recvLoop_eq_dispatchAll (err : Error) (msgs : List Message) (t : TVPN) :
    recvLoop err msgs t = (dispatchAll t msgs).map (fun t1 => (err, t1)) := by
  induction msgs generalizing t with
  | nil => rfl
  | cons msg rest ih =>
    simp only [recvLoop, dispatchAll, List.foldlM_cons]
    cases h : dispatch t msg with
    | error p => rfl
    | ok t1 =>
      simp only [ih, dispatchAll]
      rfl

theorem WF_record (t : TVPN) (c : Call) (h : t.WF) (hc : ∀ p ∈ c.mentions, p < t.heap) :
    (t.record c).WF := by
  refine ⟨h.1, ?_⟩
  intro c1 hc1 p hp
  rcases List.mem_append.mp hc1 with h1 | h1
  · exact h.2 c1 h1 p hp
  · rw [List.mem_singleton.mp h1] at hp
    exact hc p hp

theorem WF_NewState (name : String) (flag : Bool) (t : TVPN) (h : t.WF) :
    (NewState name flag t).2.WF ∧ (NewState name flag t).1 < (NewState name flag t).2.heap := by
  refine ⟨⟨?_, ?_⟩, Nat.lt_succ_self _⟩
  · intro e he
    exact Nat.lt_succ_of_lt (h.1 e he)
  · intro c1 hc1 p hp
    rcases List.mem_append.mp hc1 with h1 | h1
    · exact Nat.lt_succ_of_lt (h.2 c1 h1 p hp)
    · rw [List.mem_singleton.mp h1] at hp
      simp only [Call.mentions, List.mem_singleton] at hp
      rw [hp]
      exact Nat.lt_succ_self _

theorem WF_set (t : TVPN) (k : String) (v : Ptr) (h : t.WF) (hv : v < t.heap) :
    TVPN.WF { t with States := GoMap.set t.States k v } := by
  refine ⟨?_, h.2⟩
  intro e he
  rcases GoMap.mem_set _ _ _ _ he with h1 | h1
  · exact h.1 e h1
  · rw [h1]
    exact hv

theorem WF_delete (t : TVPN) (k : String) (h : t.WF) :
    TVPN.WF { t with States := GoMap.delete t.States k } := by
  refine ⟨?_, h.2⟩
  intro e he
  exact h.1 e (List.mem_filter.mp he).1

/-- The switch keeps every address in the registry and in the log allocated. -/
theorem dispatch_WF (t t1 : TVPN) (msg : Message) (h : t.WF)
    (hd : dispatch t msg = Except.ok t1) : t1.WF := by
  unfold dispatch at hd
  cases hT : msg.Typ with
  | Init =>
    simp only [hT] at hd
    cases hd
    obtain ⟨h1, h2⟩ := WF_NewState msg.From false t h
    have h3 := WF_record _ (Call.Input (NewState msg.From false t).1 msg) h1
      (by
        intro p hp
        simp only [Call.mentions, List.mem_singleton] at hp
        rw [hp]
        exact h2)
    exact WF_set _ _ _ h3 h2
  | Join =>
    simp only [hT] at hd
    by_cases hf : (IsFriend t msg.From).2 = true
    · simp only [hf, if_true] at hd
      cases hd
      obtain ⟨h1, h2⟩ := WF_NewState msg.From true t h
      exact WF_set _ _ _ h1 h2
    · simp only [hf] at hd
      cases hd
      exact h
  | Quit =>
    simp only [hT] at hd
    cases hl : GoMap.lookup t.States msg.From with
    | none =>
      simp only [hl] at hd
      cases hd
      exact h
    | some st =>
      simp only [hl] at hd
      cases hd
      have hst : st < t.heap := h.1 _ (GoMap.mem_of_lookup _ _ _ hl)
      have h3 := WF_record t (Call.Cleanup st) h
        (by
          intro p hp
          simp only [Call.mentions, List.mem_singleton] at hp
          rw [hp]
          exact hst)
      exact WF_delete _ _ h3
  | Reset =>
    simp only [hT] at hd
    cases hl : GoMap.lookup t.States msg.From with
    | none =>
      simp [hl, ResetCall] at hd
    | some st =>
      simp only [hl, ResetCall] at hd
      cases hd
      have hst : st < t.heap := h.1 _ (GoMap.mem_of_lookup _ _ _ hl)
      exact WF_record t _ h
        (by
          intro p hp
          simp only [Call.mentions, List.mem_singleton] at hp
          rw [hp]
          exact hst)
  | Other n =>
    simp only [hT] at hd
    cases hl : GoMap.lookup t.States msg.From with
    | none =>
      simp only [hl] at hd
      cases hd
      exact h
    | some st =>
      simp only [hl] at hd
      cases hd
      have hst : st < t.heap := h.1 _ (GoMap.mem_of_lookup _ _ _ hl)
      exact WF_record t _ h
        (by
          intro p hp
          simp only [Call.mentions, List.mem_singleton] at hp
          rw [hp]
          exact hst)

/-- Every orchestrator reached from `New` by dispatching messages has only
allocated addresses in its registry and log. -/
theorem dispatchAll_WF (msgs : List Message) (t t1 : TVPN) (h : t.WF)
    (hd : dispatchAll t msgs = Except.ok t1) : t1.WF := by
  induction msgs generalizing t with
  | nil =>
    cases hd
    exact h
  | cons msg rest ih =>
    simp only [dispatchAll, List.foldlM_cons] at hd
    cases h1 : dispatch t msg with
    | error p =>
      rw [h1] at hd
      cases hd
    | ok t2 =>
      rw [h1] at hd
      exact ih t2 (dispatch_WF t t2 msg h h1) hd

/-- The `Reset` case faults exactly when the sender has no entry. -/
theorem reset_faults_iff_no_state (t : TVPN) (msg : Message) (hT : msg.Typ = MsgType.Reset) :
    dispatch t msg = Except.error Panic.nilDereference ↔
      GoMap.lookup t.States msg.From = none := by
  cases hl : GoMap.lookup t.States msg.From with
  | none => simp [dispatch, hT, hl, ResetCall]
  | some st => simp [dispatch, hT, hl, ResetCall]

/-! ## The properties -/

/-- C1, failing input: from the empty registry of `New`, two `Init` messages
from alice are dispatched without a fault and leave two live states for alice,
the states 0 and 1: both were created by `NewState` and neither was passed to
`Cleanup`; the registry holds only the second.  Two `Join` messages from the
friend bob do the same for bob. -/
theorem double_init_leaves_two_live :
    (∃ t, dispatchAll New [initAlice, initAlice] = Except.ok t ∧
      live t.calls "alice" = [0, 1] ∧
      t.States = [("alice", 1)] ∧
      cleanups t.calls = []) ∧
    (∃ t, dispatchAll (Configure New bobUnvalidated) [joinBob, joinBob] = Except.ok t ∧
      live t.calls "bob" = [0, 1] ∧
      t.States = [("bob", 1)] ∧
      cleanups t.calls = []) := by
  constructor
  · refine ⟨TVPN.mk [] [("alice", 1)] 2
      [Call.NewState "alice" false 0, Call.Input 0 initAlice,
        Call.NewState "alice" false 1, Call.Input 1 initAlice], ?_, ?_, ?_, ?_⟩ <;> decide
  · refine ⟨TVPN.mk bobUnvalidated [("bob", 1)] 2
      [Call.NewState "bob" true 0, Call.NewState "bob" true 1], ?_, ?_, ?_, ?_⟩ <;> decide

/-- C2, failing input: with no entry for alice in the registry, dispatching a
`Reset` from alice calls `Reset` through the nil pointer that
`t.States[msg.From]` evaluates to, and the dispatch ends in a nil-dereference
panic instead of doing nothing. -/
theorem reset_without_state_faults :
    GoMap.lookup New.States resetAlice.From = none ∧
      dispatch New resetAlice = Except.error Panic.nilDereference := by
  decide

/-- C3: a `Join` whose sender is absent from the friend table is dispatched
without a fault and leaves the orchestrator as it was: the registry is the same
(no entry added, replaced or removed) and the call log is the same, so neither
`NewState` nor `Cleanup` was called. -/
theorem join_from_stranger_is_dropped (t : TVPN) (msg : Message)
    (hT : msg.Typ = MsgType.Join) (hF : GoMap.lookup t.Friends msg.From = none) :
    ∃ t', dispatch t msg = Except.ok t' ∧ t' = t ∧
      t'.States = t.States ∧ t'.calls = t.calls := by
  refine ⟨t, ?_, rfl, rfl, rfl⟩
  simp [dispatch, hT, IsFriend, hF]

theorem join_from_stranger_is_dropped_witness :
    joinEve.Typ = MsgType.Join ∧ GoMap.lookup aliceUp.Friends joinEve.From = none ∧
      ∃ t', dispatch aliceUp joinEve = Except.ok t' ∧ t' = aliceUp ∧
        t'.States = aliceUp.States ∧ t'.calls = aliceUp.calls :=
  ⟨by decide, by decide, join_from_stranger_is_dropped aliceUp joinEve (by decide) (by decide)⟩

/-- C4, counterexample: bob is in the friend table with `Validate == false`, and
a `Join` from bob is admitted all the same: `NewState("bob", true)` is called and
the registry, empty before, maps bob to the new state. -/
theorem join_from_unvalidated_friend_is_admitted :
    GoMap.lookup (Configure New bobUnvalidated).Friends "bob"
        = some { Validate := false, Routes := [] } ∧
      ∃ t', dispatch (Configure New bobUnvalidated) joinBob = Except.ok t' ∧
        t'.States = [("bob", 0)] ∧ t'.calls = [Call.NewState "bob" true 0] ∧
        t'.States ≠ (Configure New bobUnvalidated).States := by
  refine ⟨?_, ⟨TVPN.mk bobUnvalidated [("bob", 0)] 1 [Call.NewState "bob" true 0],
    ?_, ?_, ?_, ?_⟩⟩ <;> decide

/-- C4, amended: a `Join` creates a state exactly when its sender is a key of the
friend table, whatever the `Validate` flag of the entry: if the table has an
entry `f` for the sender, `NewState(sender, true)` is called and the registry
maps the sender to the new state; if it has none, the orchestrator is left as
it was. -/
theorem join_admits_exactly_known_friends (t : TVPN) (msg : Message)
    (hT : msg.Typ = MsgType.Join) :
    (∀ f : Friend, GoMap.lookup t.Friends msg.From = some f →
      ∃ t', dispatch t msg = Except.ok t' ∧
        t'.calls = t.calls ++ [Call.NewState msg.From true t.heap] ∧
        GoMap.lookup t'.States msg.From = some t.heap) ∧
    (GoMap.lookup t.Friends msg.From = none → dispatch t msg = Except.ok t) := by
  constructor
  · intro f hf
    refine ⟨{ (NewState msg.From true t).2 with
              States := GoMap.set (NewState msg.From true t).2.States msg.From
                (NewState msg.From true t).1 }, ?_, ?_, ?_⟩
    · simp only [dispatch, hT, IsFriend, hf, if_true]
    · rfl
    · exact GoMap.lookup_set_self _ _ _
  · intro hF
    simp [dispatch, hT, IsFriend, hF]

theorem join_admits_exactly_known_friends_witness :
    joinBob.Typ = MsgType.Join ∧
    (∀ f : Friend, GoMap.lookup aliceUp.Friends joinBob.From = some f →
      ∃ t', dispatch aliceUp joinBob = Except.ok t' ∧
        t'.calls = aliceUp.calls ++ [Call.NewState joinBob.From true aliceUp.heap] ∧
        GoMap.lookup t'.States joinBob.From = some aliceUp.heap) ∧
    (GoMap.lookup aliceUp.Friends joinBob.From = none →
      dispatch aliceUp joinBob = Except.ok aliceUp) :=
  ⟨by decide, join_admits_exactly_known_friends aliceUp joinBob (by decide)⟩

/-- C5: a `Quit` from peer p is dispatched without a fault; afterwards the
registry is the old one with key p deleted, it has no entry for p, and the entry
of every other peer is what it was.  `Cleanup` is called on p's state, once, when
p had an entry; when p had none the orchestrator is left as it was (no call, no
registry change).  Dispatching the same `Quit` again changes nothing. -/
theorem quit_removes_only_the_sender (t : TVPN) (msg : Message)
    (hT : msg.Typ = MsgType.Quit) :
    ∃ t', dispatch t msg = Except.ok t' ∧
      t'.States = GoMap.delete t.States msg.From ∧
      GoMap.lookup t'.States msg.From = none ∧
      (∀ q, q ≠ msg.From → GoMap.lookup t'.States q = GoMap.lookup t.States q) ∧
      (∀ st, GoMap.lookup t.States msg.From = some st →
        t'.calls = t.calls ++ [Call.Cleanup st]) ∧
      (GoMap.lookup t.States msg.From = none → t' = t) ∧
      dispatch t' msg = Except.ok t' := by
  cases h : GoMap.lookup t.States msg.From with
  | none =>
    have hd : dispatch t msg = Except.ok t := by simp [dispatch, hT, h]
    refine ⟨t, hd, (GoMap.delete_of_lookup_none _ _ h).symm, h, fun _ _ => rfl, ?_,
      fun _ => rfl, hd⟩
    intro st hst
    cases hst
  | some st =>
    refine ⟨{ t.record (Call.Cleanup st) with
              States := GoMap.delete (t.record (Call.Cleanup st)).States msg.From },
      ?_, rfl, ?_, ?_, ?_, ?_, ?_⟩
    · simp [dispatch, hT, h]
    · exact GoMap.lookup_delete_self _ _
    · intro q hq
      exact GoMap.lookup_delete_ne _ _ _ hq
    · intro st1 hst1
      cases hst1
      rfl
    · intro hn
      cases hn
    · have hl : GoMap.lookup (GoMap.delete (t.record (Call.Cleanup st)).States msg.From)
          msg.From = none := GoMap.lookup_delete_self _ _
      simp [dispatch, hT, hl]

theorem quit_removes_only_the_sender_witness :
    quitAlice.Typ = MsgType.Quit ∧
    ∃ t', dispatch aliceUp quitAlice = Except.ok t' ∧
      t'.States = GoMap.delete aliceUp.States quitAlice.From ∧
      GoMap.lookup t'.States quitAlice.From = none ∧
      (∀ q, q ≠ quitAlice.From → GoMap.lookup t'.States q = GoMap.lookup aliceUp.States q) ∧
      (∀ st, GoMap.lookup aliceUp.States quitAlice.From = some st →
        t'.calls = aliceUp.calls ++ [Call.Cleanup st]) ∧
      (GoMap.lookup aliceUp.States quitAlice.From = none → t' = aliceUp) ∧
      dispatch t' quitAlice = Except.ok t' :=
  ⟨by decide, quit_removes_only_the_sender aliceUp quitAlice (by decide)⟩

/-- C6: an `Init` from peer p, whether or not p already has an entry, is
dispatched without a fault; afterwards the registry maps p to the state that
`NewState(p, false)` returned in this dispatch, the calls made are that `NewState`
followed by the delivery of this message to the new state, and the entry of
every other peer is what it was.  When every address held so far is allocated,
the new state is none of the registry's earlier states and this message is all
that was ever delivered to it. -/
theorem init_installs_fresh_state (t : TVPN) (msg : Message)
    (hT : msg.Typ = MsgType.Init) :
    ∃ t', dispatch t msg = Except.ok t' ∧
      GoMap.lookup t'.States msg.From = some t.heap ∧
      t'.calls = t.calls ++ [Call.NewState msg.From false t.heap, Call.Input t.heap msg] ∧
      (∀ q, q ≠ msg.From → GoMap.lookup t'.States q = GoMap.lookup t.States q) ∧
      (t.WF → (∀ e ∈ t.States, e.2 ≠ t.heap) ∧ delivered t'.calls t.heap = [msg]) := by
  have hd : dispatch t msg = Except.ok
      (TVPN.mk t.Friends (GoMap.set t.States msg.From t.heap) (t.heap + 1)
        (t.calls ++ [Call.NewState msg.From false t.heap] ++ [Call.Input t.heap msg])) := by
    simp only [dispatch, hT]
    rfl
  have hc : t.calls ++ [Call.NewState msg.From false t.heap] ++ [Call.Input t.heap msg]
      = t.calls ++ [Call.NewState msg.From false t.heap, Call.Input t.heap msg] := by
    simp
  refine ⟨_, hd, GoMap.lookup_set_self _ _ _, hc, ?_, ?_⟩
  · intro q hq
    exact GoMap.lookup_set_ne _ _ _ _ hq
  · intro hwf
    refine ⟨States_ne_heap_of_WF t hwf, ?_⟩
    show delivered (t.calls ++ [Call.NewState msg.From false t.heap]
      ++ [Call.Input t.heap msg]) t.heap = [msg]
    rw [hc, delivered_append, delivered_heap_of_WF t hwf]
    simp [delivered]

theorem init_installs_fresh_state_witness :
    initAlice.Typ = MsgType.Init ∧ aliceUp.WF ∧
    ∃ t', dispatch aliceUp initAlice = Except.ok t' ∧
      GoMap.lookup t'.States initAlice.From = some aliceUp.heap ∧
      t'.calls = aliceUp.calls ++
        [Call.NewState initAlice.From false aliceUp.heap, Call.Input aliceUp.heap initAlice] ∧
      (∀ q, q ≠ initAlice.From → GoMap.lookup t'.States q = GoMap.lookup aliceUp.States q) ∧
      (aliceUp.WF → (∀ e ∈ aliceUp.States, e.2 ≠ aliceUp.heap) ∧
        delivered t'.calls aliceUp.heap = [initAlice]) :=
  ⟨by decide, by decide, init_installs_fresh_state aliceUp initAlice (by decide)⟩

/-- C7: a `Join` whose sender p is a key of the friend table is dispatched
without a fault; afterwards the registry maps p to the state that
`NewState(p, true)` returned in this dispatch, whether p had an entry or not;
that `NewState` is the only call made, so the `Join` is delivered to no state;
and the entry of every other peer is what it was.  When every address held so
far is allocated, the new state is none of the registry's earlier states and
nothing has been delivered to it. -/
theorem join_from_friend_installs_validated_state (t : TVPN) (msg : Message) (f : Friend)
    (hT : msg.Typ = MsgType.Join) (hF : GoMap.lookup t.Friends msg.From = some f) :
    ∃ t', dispatch t msg = Except.ok t' ∧
      GoMap.lookup t'.States msg.From = some t.heap ∧
      t'.calls = t.calls ++ [Call.NewState msg.From true t.heap] ∧
      (∀ st, delivered t'.calls st = delivered t.calls st) ∧
      (∀ q, q ≠ msg.From → GoMap.lookup t'.States q = GoMap.lookup t.States q) ∧
      (t.WF → (∀ e ∈ t.States, e.2 ≠ t.heap) ∧ delivered t'.calls t.heap = []) := by
  have hc : ({ (NewState msg.From true t).2 with
                States := GoMap.set (NewState msg.From true t).2.States msg.From
                  (NewState msg.From true t).1 } : TVPN).calls
      = t.calls ++ [Call.NewState msg.From true t.heap] := rfl
  have hdel : ∀ st, delivered (t.calls ++ [Call.NewState msg.From true t.heap]) st
      = delivered t.calls st := by
    intro st
    rw [delivered_append]
    simp [delivered]
  refine ⟨{ (NewState msg.From true t).2 with
            States := GoMap.set (NewState msg.From true t).2.States msg.From
              (NewState msg.From true t).1 }, ?_, ?_, hc, ?_, ?_, ?_⟩
  · simp only [dispatch, hT, IsFriend, hF, if_true]
  · exact GoMap.lookup_set_self _ _ _
  · intro st
    rw [hc]
    exact hdel st
  · intro q hq
    exact GoMap.lookup_set_ne _ _ _ _ hq
  · intro hwf
    refine ⟨States_ne_heap_of_WF t hwf, ?_⟩
    rw [hc, hdel]
    exact delivered_heap_of_WF t hwf

theorem join_from_friend_installs_validated_state_witness :
    joinBob.Typ = MsgType.Join ∧
    GoMap.lookup aliceUp.Friends joinBob.From = some { Validate := false, Routes := [] } ∧
    aliceUp.WF ∧
    ∃ t', dispatch aliceUp joinBob = Except.ok t' ∧
      GoMap.lookup t'.States joinBob.From = some aliceUp.heap ∧
      t'.calls = aliceUp.calls ++ [Call.NewState joinBob.From true aliceUp.heap] ∧
      (∀ st, delivered t'.calls st = delivered aliceUp.calls st) ∧
      (∀ q, q ≠ joinBob.From → GoMap.lookup t'.States q = GoMap.lookup aliceUp.States q) ∧
      (aliceUp.WF → (∀ e ∈ aliceUp.States, e.2 ≠ aliceUp.heap) ∧
        delivered t'.calls aliceUp.heap = []) :=
  ⟨by decide, by decide, by decide,
    join_from_friend_installs_validated_state aliceUp joinBob
      { Validate := false, Routes := [] } (by decide) (by decide)⟩

/-- C8: `Stop` leaves the registry empty; the calls it makes are `Disconnect`
on the signaling channel, `Stop` on the allocator and then one `Cleanup` per
registry entry, on that entry's state.  A second `Stop` ends with the same,
empty, registry and calls `Cleanup` on no state. -/
theorem stop_cleans_every_state_once (t : TVPN) :
    (Stop t).States = [] ∧
    (Stop t).calls = t.calls ++ [Call.SigDisconnect, Call.AllocStop] ++
      t.States.map (fun e => Call.Cleanup e.2) ∧
    cleanups (Stop t).calls = cleanups t.calls ++ t.States.map Prod.snd ∧
    (Stop (Stop t)).States = (Stop t).States ∧
    (Stop (Stop t)).calls = (Stop t).calls ++ [Call.SigDisconnect, Call.AllocStop] ∧
    cleanups (Stop (Stop t)).calls = cleanups (Stop t).calls := by
  have hS : ∀ u : TVPN, (Stop u).States = [] := fun u => Cleanup_States _
  have hC : ∀ u : TVPN, (Stop u).calls = u.calls ++ [Call.SigDisconnect, Call.AllocStop] ++
      u.States.map (fun e => Call.Cleanup e.2) := by
    intro u
    have h := (cleanupLoop_spec ((u.record Call.SigDisconnect).record Call.AllocStop).States
      ((u.record Call.SigDisconnect).record Call.AllocStop)).1
    simp only [Stop, Cleanup, h]
    simp [TVPN.record]
  have hC2 : (Stop (Stop t)).calls = (Stop t).calls ++ [Call.SigDisconnect, Call.AllocStop] := by
    rw [hC (Stop t), hS t]
    simp
  refine ⟨hS t, hC t, ?_, ?_, hC2, ?_⟩
  · rw [hC t, cleanups_append, cleanups_append, cleanups_map_Cleanup]
    simp [cleanups]
  · rw [hS t, hS (Stop t)]
  · rw [hC2, cleanups_append]
    simp [cleanups]

/-- The receive loop against dispatching one by one.  When `Connect` fails,
`Run` returns that error after the calls `Alloc.Init` and `Sig.Connect` only,
with the registry as it was.  When `Connect` succeeds and the channel delivers
the messages of `inbox` and then fails, `Run` does what dispatching those
messages one by one in delivery order does: where that yields the orchestrator
`t1`, `Run` returns the channel's error and leaves exactly `t1` (registry and
call log, so nothing is torn down on the way out); a dispatch that faults is the
fault of `Run`. -/
theorem run_returns_first_channel_error (t : TVPN) (sig : SigBackend) :
    (∀ err, sig.connectErr = some err →
      ∃ t1, Run t sig = Except.ok (err, t1) ∧ t1.States = t.States ∧
        t1.calls = t.calls ++ [Call.AllocInit, Call.SigConnect]) ∧
    (sig.connectErr = none →
      (∀ t1, dispatchAll ((t.record Call.AllocInit).record Call.SigConnect) sig.inbox
          = Except.ok t1 → Run t sig = Except.ok (sig.recvErr, t1)) ∧
      (∀ p, dispatchAll ((t.record Call.AllocInit).record Call.SigConnect) sig.inbox
          = Except.error p → Run t sig = Except.error p)) := by
  constructor
  · intro err he
    refine ⟨(t.record Call.AllocInit).record Call.SigConnect, ?_, rfl, ?_⟩
    · simp only [Run, he]
    · simp [TVPN.record]
  · intro hn
    have hr : Run t sig = (dispatchAll ((t.record Call.AllocInit).record Call.SigConnect)
        sig.inbox).map (fun t1 => (sig.recvErr, t1)) := by
      simp only [Run, hn]
      exact recvLoop_eq_dispatchAll _ _ _
    constructor
    · intro t1 h1
      rw [hr, h1]
      rfl
    · intro p h1
      rw [hr, h1]
      rfl

theorem run_returns_first_channel_error_witness :
    Run New aliceSession = Except.ok ("EOF", aliceSessionEnd) ∧
    ∃ t1, Run aliceUp refusingChannel = Except.ok ("connection refused", t1) ∧
      t1.States = aliceUp.States ∧
      t1.calls = aliceUp.calls ++ [Call.AllocInit, Call.SigConnect] :=
  ⟨((run_returns_first_channel_error New aliceSession).2 (by decide)).1 aliceSessionEnd
      (by decide),
    (run_returns_first_channel_error aliceUp refusingChannel).1 "connection refused" (by decide)⟩

/-- C9, failing input: started on the empty registry of `New`, with a channel
that connects, delivers one `Reset` from alice and then fails with "EOF", `Run`
does not return the channel's error: alice has no entry, the `Reset` case calls
`Reset` through a nil pointer, and `Run` ends in a nil-dereference panic at that
message, whatever orchestrator the claim would have it leave. -/
theorem run_panics_on_reset_without_state :
    resetSession.connectErr = none ∧
    GoMap.lookup ((New.record Call.AllocInit).record Call.SigConnect).States
      resetAlice.From = none ∧
    Run New resetSession = Except.error Panic.nilDereference ∧
    ∀ t1, Run New resetSession ≠ Except.ok (resetSession.recvErr, t1) := by
  have hr : Run New resetSession = Except.error Panic.nilDereference := by decide
  refine ⟨by decide, by decide, hr, ?_⟩
  intro t1 h
  rw [hr] at h
  cases h

/-- C10: a message whose type is none of `Init`, `Join`, `Quit`, `Reset` is
dispatched without a fault and leaves the registry as it was.  When the sender
has an entry, the one call made is the delivery of the message to that entry's
state; when it has none, the message is discarded and the orchestrator is left
as it was. -/
theorem other_message_goes_to_the_senders_state (t : TVPN) (msg : Message)
    (hI : msg.Typ ≠ MsgType.Init) (hJ : msg.Typ ≠ MsgType.Join)
    (hQ : msg.Typ ≠ MsgType.Quit) (hR : msg.Typ ≠ MsgType.Reset) :
    ∃ t', dispatch t msg = Except.ok t' ∧
      t'.States = t.States ∧
      (∀ st, GoMap.lookup t.States msg.From = some st →
        t'.calls = t.calls ++ [Call.Input st msg]) ∧
      (GoMap.lookup t.States msg.From = none → t' = t) := by
  cases hT : msg.Typ with
  | Init => exact absurd hT hI
  | Join => exact absurd hT hJ
  | Quit => exact absurd hT hQ
  | Reset => exact absurd hT hR
  | Other n =>
    cases hl : GoMap.lookup t.States msg.From with
    | none =>
      refine ⟨t, ?_, rfl, ?_, fun _ => rfl⟩
      · simp [dispatch, hT, hl]
      · intro st hst
        cases hst
    | some st =>
      refine ⟨t.record (Call.Input st msg), ?_, rfl, ?_, ?_⟩
      · simp [dispatch, hT, hl]
      · intro st1 hst1
        cases hst1
        rfl
      · intro hn
        cases hn

theorem other_message_goes_to_the_senders_state_witness :
    dataAlice.Typ ≠ MsgType.Init ∧ dataAlice.Typ ≠ MsgType.Join ∧
    dataAlice.Typ ≠ MsgType.Quit ∧ dataAlice.Typ ≠ MsgType.Reset ∧
    GoMap.lookup aliceUp.States dataAlice.From = some 0 ∧
    ∃ t', dispatch aliceUp dataAlice = Except.ok t' ∧
      t'.States = aliceUp.States ∧
      (∀ st, GoMap.lookup aliceUp.States dataAlice.From = some st →
        t'.calls = aliceUp.calls ++ [Call.Input st dataAlice]) ∧
      (GoMap.lookup aliceUp.States dataAlice.From = none → t' = aliceUp) :=
  ⟨by decide, by decide, by decide, by decide, by decide,
    other_message_goes_to_the_senders_state aliceUp dataAlice
      (by decide) (by decide) (by decide) (by decide)⟩

end Tvpn
